import Mathlib

/-!
# MicroTeX: math alphabets, the glue table and the font registry

A shallow embedding of `src/unimath/uni_font.cpp` and `src/res/builtin/glue.res.cpp`.

* `c32` (`char32_t`) values are natural numbers below `2 ^ 32`, and their sum wraps modulo
  `2 ^ 32`; `i32` and `int` values are integers.
* `sptr<T>` is `Option T` (`none` is `nullptr`).
* `std::map<std::string, sptr<T>>` is an association list with the three operations the
  source uses: `find`, `operator[]` (which inserts a null entry for a missing key) and
  assignment through `operator[]`.
* Dereferencing a null pointer is undefined behaviour; the embedding returns `none` there.
-/

namespace tex

/-! ## Math alphabets (`uni_font.cpp`, lines 9-29) -/

/-- Addition of two `c32` values: both operands are promoted to 32-bit unsigned, so the
sum wraps modulo `2 ^ 32`. -/
def add32 (a b : Nat) : Nat := (a + b) % 2 ^ 32

/-- Modelled from the spec: the enum `MathType` of `unimath/uni_font.h` (the header is not
part of the sources). The five character classes plus the implicit class "none"; the
ordinals are the positions of the bases in `_codepoints`, where slot 0 holds `0`. -/
inductive MathType
  | none
  | digit
  | latinSmall
  | latinCapital
  | greekSmall
  | greekCapital
deriving DecidableEq, Repr

/-- The cast `static_cast<u8>(type)`. -/
def MathType.toU8 : MathType → Nat
  | .none => 0
  | .digit => 1
  | .latinSmall => 2
  | .latinCapital => 3
  | .greekSmall => 4
  | .greekCapital => 5

/-- A math alphabet: the five constructor arguments of `MathVersion::MathVersion`. -/
structure MathVersion where
  digit : Nat
  latinSmall : Nat
  latinCapital : Nat
  greekSmall : Nat
  greekCapital : Nat
deriving DecidableEq, Repr

/-- The member array `_codepoints{0, digit, latinSmall, latinCapital, greekSmall, greekCapital}`. -/
def MathVersion._codepoints (v : MathVersion) : List Nat :=
  [0, v.digit, v.latinSmall, v.latinCapital, v.greekSmall, v.greekCapital]

/-- The function `MathVersion::ofChar`: the class of a codepoint and its offset in the class. -/
def MathVersion.ofChar (codepoint : Nat) : MathType × Nat :=
  if codepoint ≥ 48 ∧ codepoint ≤ 57 then (MathType.digit, codepoint - 48)
  else if codepoint ≥ 97 ∧ codepoint ≤ 122 then (MathType.latinSmall, codepoint - 97)
  else if codepoint ≥ 65 ∧ codepoint ≤ 90 then (MathType.latinCapital, codepoint - 65)
  else if codepoint ≥ 0x03B1 ∧ codepoint ≤ 0x03C9 then (MathType.greekSmall, codepoint - 0x03B1)
  else if codepoint ≥ 0x0391 ∧ codepoint ≤ 0x03A9 then (MathType.greekCapital, codepoint - 0x0391)
  else (MathType.none, codepoint)

/-- The function `MathVersion::map`: `_codepoints[static_cast<u8>(type)] + offset`.
The index is always below 6, so the default of `getD` is never used. -/
def MathVersion.map (v : MathVersion) (codepoint : Nat) : Nat :=
  let p := MathVersion.ofChar codepoint
  add32 (v._codepoints.getD p.1.toU8 0) p.2

/-- The base codepoint of a class in an alphabet, `alphabet.base[class]` in the words of
the spec; the class "none" has no base and gets the `0` of slot 0. -/
def MathVersion.base (v : MathVersion) : MathType → Nat
  | .none => 0
  | .digit => v.digit
  | .latinSmall => v.latinSmall
  | .latinCapital => v.latinCapital
  | .greekSmall => v.greekSmall
  | .greekCapital => v.greekCapital

/-! ## The glue catalog and the glue table (`glue.res.cpp`) -/

/-- A glue: `Glue(space, stretch, shrink, name)`. The catalog only holds integer-valued
literals, so the three `float` members are carried as integers. -/
structure Glue where
  _space : Int
  _stretch : Int
  _shrink : Int
  _name : String
deriving DecidableEq, Repr

/-- The helper `g(name, space, stretch, shrink)` of `glue.res.cpp`. -/
def g (name : String) (space stretch shrink : Int) : Glue :=
  Glue.mk space stretch shrink name

/-- The catalog `Glue::_glueTypes`. -/
def _glueTypes : List Glue :=
  [ g "default" 0 0 0,
    g "thin" 3 0 0,
    g "med" 4 4 2,
    g "thick" 5 0 5 ]

/-- Modelled from the spec: the eight atom classes, in the order of the rows and columns of
the glue table (ORD, OP, BIN, REL, OPEN, CLOSE, PUNCT, INNER); the enum itself is declared
outside the sources. -/
inductive AtomType
  | ordinary
  | operator
  | binary
  | relation
  | opening
  | closing
  | punctuation
  | inner
deriving DecidableEq, Repr, Fintype

/-- The row or column of an atom class in the glue table. -/
def AtomType.toNat : AtomType → Nat
  | .ordinary => 0
  | .operator => 1
  | .binary => 2
  | .relation => 3
  | .opening => 4
  | .closing => 5
  | .punctuation => 6
  | .inner => 7

/-- Modelled from the spec: the four math styles, in the order display, text, script,
scriptscript; the enum itself is declared outside the sources. -/
inductive TexStyle
  | display
  | text
  | script
  | scriptScript
deriving DecidableEq, Repr, Fintype

/-- The ordinal of a style, the index into a cell of the glue table. -/
def TexStyle.toNat : TexStyle → Nat
  | .display => 0
  | .text => 1
  | .script => 2
  | .scriptScript => 3

/-- The table `Glue::_table[TYPE_COUNT][TYPE_COUNT][STYLE_COUNT]`. -/
def _table : List (List String) :=
  [ ["0000", "1111", "2200", "3300", "0000", "0000", "0000", "1100"],
    ["1111", "1111", "0000", "3300", "0000", "0000", "0000", "1100"],
    ["2200", "2200", "0000", "0000", "2200", "0000", "0000", "2200"],
    ["3300", "3300", "0000", "0000", "3300", "0000", "0000", "3300"],
    ["0000", "0000", "0000", "0000", "0000", "0000", "0000", "0000"],
    ["0000", "1111", "2200", "3300", "0000", "0000", "0000", "1100"],
    ["1100", "1100", "0000", "1100", "1100", "1100", "1100", "1100"],
    ["1100", "1111", "2200", "3300", "1100", "0000", "1100", "1100"] ]

/-- An entry of the table printed in the comment above `Glue::_table` (page 181 of the
TeXbook): a plain digit, a parenthesized digit, or `*`. -/
inductive TableEntry
  | plain (n : Nat)
  | paren (n : Nat)
  | star
deriving DecidableEq, Repr

/-- The table of the `GLUE TABLE` comment of `glue.res.cpp`, row by row. -/
def _comment : List (List TableEntry) :=
  [ [.plain 0, .plain 1, .paren 2, .paren 3, .plain 0, .plain 0, .plain 0, .paren 1],
    [.plain 1, .plain 1, .star, .paren 3, .plain 0, .plain 0, .plain 0, .paren 1],
    [.paren 2, .paren 2, .star, .star, .paren 2, .star, .star, .paren 2],
    [.paren 3, .paren 3, .star, .plain 0, .paren 3, .plain 0, .plain 0, .paren 3],
    [.paren 0, .plain 0, .star, .plain 0, .plain 0, .plain 0, .plain 0, .plain 0],
    [.paren 0, .plain 1, .paren 2, .paren 3, .plain 0, .plain 0, .plain 0, .paren 1],
    [.paren 1, .paren 1, .star, .paren 1, .paren 1, .paren 1, .paren 1, .paren 1],
    [.paren 1, .plain 1, .paren 2, .paren 3, .paren 1, .plain 0, .paren 1, .paren 1] ]

/-- The entry of the comment table for a pair of atom classes. -/
def commentEntry (l r : AtomType) : TableEntry :=
  ((_comment.getD l.toNat []).getD r.toNat TableEntry.star)

/-- A cell is a "never occurs" cell when the comment table prints `*` for it. -/
def neverOccurs (l r : AtomType) : Bool :=
  match commentEntry l r with
  | .star => true
  | _ => false

/-- A cell is suppressible when the comment table prints it in parentheses. -/
def suppressible (l r : AtomType) : Bool :=
  match commentEntry l r with
  | .paren _ => true
  | _ => false

/-- The digit stored in `_table[l][r][s]`, that is the character minus `'0'`. -/
def tableDigit (l r : AtomType) (s : TexStyle) : Option Nat := do
  let row ← _table[l.toNat]?
  let cell ← row[r.toNat]?
  let ch ← cell.toList[s.toNat]?
  pure (ch.toNat - '0'.toNat)

/-- Modelled from the spec: the classifier `classify(leftClass, rightClass, style)`, whose
code is outside the sources: index the table by the two classes, index the style vector by
the ordinal of the style, and map the digit to the entry of `_glueTypes`. -/
def classify (l r : AtomType) (s : TexStyle) : Option Glue := do
  let d ← tableDigit l r s
  _glueTypes[d]?

/-! ## The font registry (`uni_font.cpp`, lines 31-146) -/

/-- A shared pointer `sptr<T>`; `none` is `nullptr`. -/
abbrev sptr (α : Type) := Option α

/-- A `std::map<std::string, sptr<T>>`, as an association list with one entry per key. -/
abbrev StrMap (α : Type) := List (String × sptr α)

/-- The lookup `m.find(k)`: `none` is `m.end()`; it never changes the map. -/
def StrMap.find {α : Type} (m : StrMap α) (k : String) : Option (sptr α) :=
  List.lookup k m

/-- Reading `m[k]`: the mapped pointer, and the map afterwards. A missing key is inserted
with a null pointer, as `std::map::operator[]` does. -/
def StrMap.index {α : Type} (m : StrMap α) (k : String) : sptr α × StrMap α :=
  match StrMap.find m k with
  | some v => (v, m)
  | none => (none, m ++ [(k, none)])

/-- The assignment `m[k] = v`: replaces the pointer of an existing key, inserts otherwise. -/
def StrMap.assign {α : Type} : StrMap α → String → sptr α → StrMap α
  | [], k, v => [(k, v)]
  | (k0, v0) :: m, k, v =>
    if k0 = k then (k, v) :: m else (k0, v0) :: StrMap.assign m k v

/-- Modelled from the spec: the glyph table `Otf` of the external font service, which is
outside the sources. A table is identified by the metrics file `Otf::fromFile` read it
from; the lookup `Otf::glyphId` is a parameter of `getChar`. -/
structure Otf where
  clmFile : String
deriving DecidableEq, Repr

/-- A loaded font `OtfFont`: `_id`, `_fontFile`, `_otf`. -/
structure OtfFont where
  _id : Int
  _fontFile : String
  _otf : Otf
deriving DecidableEq, Repr

/-- The constructor `OtfFont::OtfFont(id, fontFile, clmFile)`. -/
def OtfFont.new (id : Int) (fontFile clmFile : String) : OtfFont :=
  OtfFont.mk id fontFile (Otf.mk clmFile)

/-- A font family: the map `_styles` from style names to fonts. -/
structure FontFamily where
  _styles : StrMap OtfFont
deriving DecidableEq, Repr

/-- A `FontSpec`: the triple read by the structured bindings of `addMainFont` and
`addMathFont` (style or version name, font file, metrics file). -/
abbrev FontSpec := String × String × String

/-- Modelled from the spec: the struct `Char` of the header, built in `getChar` as
`{code, unicode, font id, glyph id}`: original codepoint, display codepoint, id of the
owning font, glyph id within that font. -/
structure Char where
  _code : Nat
  _mappedCode : Nat
  _fontId : Int
  _glyphId : Int
deriving DecidableEq, Repr

/-- The state of `FontContext`: its static members and the two active fonts.
`FontFamily` objects are shared and mutable (`sptr<FontFamily>`), so they live in `heap`
and a pointer to a family is its position there. Fonts are immutable (`const OtfFont`) and
are held by value; every element of `_fonts` comes from `sptrOf` and is never null.
`_lastId` is an `int`; its increment is modelled without wraparound, signed overflow being
undefined and out of reach below `2 ^ 31` loaded fonts. -/
structure FontContext where
  _mathStyles : StrMap MathVersion
  _mathVersions : StrMap MathVersion
  _lastId : Int
  _fonts : List OtfFont
  _mainFonts : StrMap Nat
  _mathFonts : StrMap OtfFont
  _mainFont : sptr Nat
  _mathFont : sptr OtfFont
  heap : List FontFamily
deriving DecidableEq, Repr

/-- The constant `FontContext::_emptyVersionName`. -/
def _emptyVersionName : String := ""

/-- The constant `FontContext::_defaultVersionName`. -/
def _defaultVersionName : String := "mathnormal"

/-- The initializer `version(name, digit, latinSmall, latinCapital, greekSmall, greekCapital)`. -/
def version (name : String) (digit latinSmall latinCapital greekSmall greekCapital : Nat) :
    String × sptr MathVersion :=
  (name, some (MathVersion.mk digit latinSmall latinCapital greekSmall greekCapital))

/-- The initial value of `FontContext::_mathStyles`. -/
def _mathStyles : StrMap MathVersion :=
  [ version "TeX" 48 0x1D44E 0x1D434 0x1D6FC 0x0391,
    version "ISO" 48 0x1D44E 0x1D434 0x1D6FC 0x1D6E2,
    version "French" 48 0x1D44E 65 0x03B1 0x0391,
    version "upright" 48 97 65 0x03B1 0x0391 ]

/-- The initial value of `FontContext::_mathVersions`. -/
def _mathVersions : StrMap MathVersion :=
  [ (_emptyVersionName, (StrMap.index _mathStyles "TeX").1),
    (_defaultVersionName, (StrMap.index _mathStyles "TeX").1),
    version "mathrm" 48 97 65 0x03B1 0x0391,
    version "mathbf" 0x1D7CE 0x1D41A 0x1D400 0x1D6C2 0x1D6A8,
    version "mathit" 48 0x1D44E 0x1D434 0x1D6FC 0x1D6E2,
    version "mathbfit" 48 0x1D482 0x1D468 0x1D736 0x1D71C,
    version "mathcal" 48 0x1D4B6 0x1D49C 0x03B1 0x0391,
    version "mathbfcal" 48 0x1D4EA 0x1D4D0 0x03B1 0x0391,
    version "mathfrak" 48 0x1D51E 0x1D504 0x03B1 0x0391,
    version "mathbb" 0x1D7D8 0x1D552 0x1D538 0x03B1 0x0391,
    version "mathbffrak" 48 0x1D586 0x1D552 0x03B1 0x0391,
    version "mathsf" 0x1D7E2 0x1D5BA 0x1D5A0 0x03B1 0x0391,
    version "mathsfbf" 0x1D7EC 0x1D5EE 0x1D5D4 0x1D770 0x1D756,
    version "mathsfit" 48 0x1D622 0x1D608 0x03B1 0x0391,
    version "mathsfbfit" 48 0x1D656 0x1D63C 0x1D7AA 0x1D790,
    version "mathtt" 0x1D7F6 0x1D68A 0x1D670 0x03B1 0x0391 ]

/-- The state after static initialization: no font loaded, no family allocated, and, as the
spec has it, no active main family and no active math font. -/
def FontContext.initial : FontContext :=
  { _mathStyles := tex._mathStyles
    _mathVersions := tex._mathVersions
    _lastId := 0
    _fonts := []
    _mainFonts := []
    _mathFonts := []
    _mainFont := none
    _mathFont := none
    heap := [] }

/-- The loop of `FontContext::addMainFont`: each entry loads a font with id `_lastId++`,
pushes it on `_fonts` and stores it in the new family under its style name. -/
def FontContext.addMainFontLoop (ctx : FontContext) (f : FontFamily) :
    List FontSpec → FontContext × FontFamily
  | [] => (ctx, f)
  | (style, font, clm) :: rest =>
    let otf := OtfFont.new ctx._lastId font clm
    let ctx1 := { ctx with _lastId := ctx._lastId + 1, _fonts := ctx._fonts ++ [otf] }
    FontContext.addMainFontLoop ctx1 (FontFamily.mk (StrMap.assign f._styles style (some otf))) rest

/-- The function `FontContext::addMainFont`: a new family is allocated, filled by the loop
and bound to `versionName` in `_mainFonts`. -/
def FontContext.addMainFont (ctx : FontContext) (versionName : String)
    (params : List FontSpec) : FontContext :=
  let ptr := ctx.heap.length
  let r := FontContext.addMainFontLoop ctx (FontFamily.mk []) params
  { r.1 with
    heap := r.1.heap ++ [r.2]
    _mainFonts := StrMap.assign r.1._mainFonts versionName (some ptr) }

/-- The function `FontContext::addMathFont`. -/
def FontContext.addMathFont (ctx : FontContext) (params : FontSpec) : FontContext :=
  let otf := OtfFont.new ctx._lastId params.2.1 params.2.2
  { ctx with
    _lastId := ctx._lastId + 1
    _fonts := ctx._fonts ++ [otf]
    _mathFonts := StrMap.assign ctx._mathFonts params.1 (some otf) }

/-- The function `FontContext::setMathStyle`. -/
def FontContext.setMathStyle (ctx : FontContext) (styleName : String) : FontContext :=
  match StrMap.find ctx._mathStyles styleName with
  | none => ctx
  | some second =>
    { ctx with _mathVersions := StrMap.assign ctx._mathVersions _defaultVersionName second }

/-- The conversion of an `i32` to `size_t` (64 bits) in a comparison with or an index
into a `std::vector`. -/
def toSizeT (id : Int) : Nat := (id % 2 ^ 64).toNat

/-- The function `FontContext::getFont`: `id >= _fonts.size() || id < 0` yields `nullptr`. -/
def FontContext.getFont (ctx : FontContext) (id : Int) : sptr OtfFont :=
  if toSizeT id ≥ ctx._fonts.length ∨ id < 0 then none
  else ctx._fonts[toSizeT id]?

/-- The function `FontContext::selectMathFont`. -/
def FontContext.selectMathFont (ctx : FontContext) (versionName : String) : FontContext :=
  let r := StrMap.index ctx._mathFonts versionName
  { ctx with _mathFonts := r.2, _mathFont := r.1 }

/-- The function `FontContext::selectMainFont`. -/
def FontContext.selectMainFont (ctx : FontContext) (versionName : String) : FontContext :=
  let r := StrMap.index ctx._mainFonts versionName
  { ctx with _mainFonts := r.2, _mainFont := r.1 }

/-- The math-mode branch of `FontContext::getChar`. The two reads of `_mathVersions` go
through `operator[]`; a null `_mathVersions[""]` or a null `_mathFont` is dereferenced by
the source, which is undefined: the result is `none`. -/
def FontContext.getCharMath (glyphId : Otf → Nat → Int) (ctx : FontContext) (code : Nat)
    (style : String) : Option (Char × FontContext) :=
  let r := StrMap.index ctx._mathVersions style
  let q := match r.1 with
    | some ptr => (some ptr, r.2)
    | none => StrMap.index r.2 ""
  match q.1 with
  | none => none
  | some version =>
    let unicode := version.map code
    match ctx._mathFont with
    | none => none
    | some mathFont =>
      some (Char.mk code unicode mathFont._id (glyphId mathFont._otf unicode),
            { ctx with _mathVersions := q.2 })

/-- The text-mode branch of `FontContext::getChar`. The reads `(*_mainFont)[style]` and
`(*_mainFont)[""]` go through `FontFamily::operator[]`, that is `_styles[styleName]`, and
update the family in place; a null `_mainFont` or a null final `font` is dereferenced by
the source, which is undefined: the result is `none`. -/
def FontContext.getCharText (glyphId : Otf → Nat → Int) (ctx : FontContext) (code : Nat)
    (style : String) : Option (Char × FontContext) :=
  match ctx._mainFont with
  | none => none
  | some p =>
    match ctx.heap[p]? with
    | none => none
    | some family =>
      let r := StrMap.index family._styles style
      let q := if r.1.isNone then StrMap.index r.2 "" else r
      let font := if q.1.isNone then ctx._mathFont else q.1
      match font with
      | none => none
      | some font =>
        some (Char.mk code code font._id (glyphId font._otf code),
              { ctx with heap := ctx.heap.set p (FontFamily.mk q.2) })

/-- The function `FontContext::getChar(code, style, isMathMode)`: the resolved character
and the state afterwards, or `none` where the source dereferences a null pointer. -/
def FontContext.getChar (glyphId : Otf → Nat → Int) (ctx : FontContext) (code : Nat)
    (style : String) (isMathMode : Bool) : Option (Char × FontContext) :=
  if isMathMode then FontContext.getCharMath glyphId ctx code style
  else FontContext.getCharText glyphId ctx code style

/-- The font text-mode resolution settles on, in the words of the spec: the font of
`styleName` in the active family; if absent, the font of the empty style name in the
family; if still absent, the active math font. An entry bound to a null pointer counts as
absent. -/
def firstAvailableFont (family : FontFamily) (mathFont : sptr OtfFont) (styleName : String) :
    sptr OtfFont :=
  match (StrMap.find family._styles styleName).join with
  | some font => some font
  | none =>
    match (StrMap.find family._styles "").join with
    | some font => some font
    | none => mathFont

/-- A mutating call on the registry. -/
inductive Op
  | addMainFont (versionName : String) (params : List FontSpec)
  | addMathFont (params : FontSpec)
  | selectMainFont (versionName : String)
  | selectMathFont (versionName : String)
  | setMathStyle (styleName : String)
deriving DecidableEq, Repr

/-- The state after one call. -/
def FontContext.step (ctx : FontContext) : Op → FontContext
  | .addMainFont versionName params => ctx.addMainFont versionName params
  | .addMathFont params => ctx.addMathFont params
  | .selectMainFont versionName => ctx.selectMainFont versionName
  | .selectMathFont versionName => ctx.selectMathFont versionName
  | .setMathStyle styleName => ctx.setMathStyle styleName

/-- The state after a sequence of calls, the first call first. -/
def FontContext.run (ctx : FontContext) (ops : List Op) : FontContext :=
  ops.foldl FontContext.step ctx

/-- The id counter equals the number of loaded fonts, and the font stored at index `i` has
id `i`. -/
def FontContext.IdsAreIndices (ctx : FontContext) : Prop :=
  ctx._lastId = ctx._fonts.length ∧ ∀ (i : Nat) (f : OtfFont), ctx._fonts[i]? = some f → f._id = i

/-- The function `FontContext::getChar(const std::string& symbol)`. The dictionary lookup
`Symbol::get` belongs to `unimath/uni_symbol.h`, outside the sources, and is a parameter:
`none` is its null pointer. For an unknown symbol the source returns `{}`, the
value-initialized `Char` with every member zero; for a known symbol control reaches the
end of the function without a `return`, which is undefined: the result is `none`. The
function reads no registry state. -/
def FontContext.getCharOfSymbol {Symbol : Type} (get : String → Option Symbol)
    (symbol : String) : Option Char :=
  match get symbol with
  | none => some (Char.mk 0 0 0 0)
  | some _ => none

/-- The check that each base of an alphabet is the first codepoint of its own class (the
class is not shifted) or lies beyond the five classified ranges, which end at U+03C9,
with its run of at most 26 codepoints below `2 ^ 32`. -/
def MathVersion.unshiftedOrBeyond (V : MathVersion) : Bool :=
  decide (V.digit = 48 ∨ (0x03CA ≤ V.digit ∧ V.digit + 25 < 2 ^ 32)) &&
  decide (V.latinSmall = 97 ∨ (0x03CA ≤ V.latinSmall ∧ V.latinSmall + 25 < 2 ^ 32)) &&
  decide (V.latinCapital = 65 ∨ (0x03CA ≤ V.latinCapital ∧ V.latinCapital + 25 < 2 ^ 32)) &&
  decide (V.greekSmall = 0x03B1 ∨ (0x03CA ≤ V.greekSmall ∧ V.greekSmall + 25 < 2 ^ 32)) &&
  decide (V.greekCapital = 0x0391 ∨
    (0x03CA ≤ V.greekCapital ∧ V.greekCapital + 25 < 2 ^ 32))

/-! ## Theorems: math alphabets -/

/-- C1: for every alphabet `v` (any five bases) and every `c32` value `c`: when `ofChar`
puts `c` in a class `k` other than "none" with offset `o`, `map` returns the base of `k`
plus `o` (a `c32` sum, which is the exact sum whenever the base is a Unicode codepoint);
when the class is "none", `map` returns `c` unchanged. With the mathbf bases, `'5'`
goes to `0x1D7CE + 5`, `'b'` to `0x1D41A + 1` and `'+'` to itself. -/
theorem C1_map_is_base_plus_offset (v : MathVersion) (c : Nat) (hc : c < 2 ^ 32) :
    (∀ k o, MathVersion.ofChar c = (k, o) → k ≠ MathType.none →
        v.map c = add32 (v.base k) o ∧ (v.base k ≤ 0x10FFFF → v.map c = v.base k + o)) ∧
    ((MathVersion.ofChar c).1 = MathType.none → v.map c = c) ∧
    (MathVersion.mk 0x1D7CE 0x1D41A 0x1D400 0x1D6C2 0x1D6A8).map 53 = 0x1D7CE + 5 ∧
    (MathVersion.mk 0x1D7CE 0x1D41A 0x1D400 0x1D6C2 0x1D6A8).map 98 = 0x1D41A + 1 ∧
    (MathVersion.mk 0x1D7CE 0x1D41A 0x1D400 0x1D6C2 0x1D6A8).map 43 = 43 := by
  refine ⟨?_, ?_, by decide, by decide, by decide⟩
  · intro k o h hk
    have hk2 : (MathVersion.ofChar c).1 = k := by rw [h]
    have ho2 : (MathVersion.ofChar c).2 = o := by rw [h]
    have hb : v._codepoints.getD k.toU8 0 = v.base k := by
      cases k <;> rfl
    have hm : v.map c = add32 (v.base k) o := by
      simp only [MathVersion.map, hk2, ho2, hb]
    refine ⟨hm, fun hbase => ?_⟩
    have ho : o ≤ 25 := by
      unfold MathVersion.ofChar at h
      split_ifs at h <;> simp only [Prod.mk.injEq] at h <;> obtain ⟨h1, h2⟩ := h <;>
        first | omega | exact absurd h1.symm hk
    rw [hm, add32]
    apply Nat.mod_eq_of_lt
    omega
  · intro h
    have h2 : (MathVersion.ofChar c).2 = c := by
      unfold MathVersion.ofChar at h ⊢
      split_ifs at h ⊢
      rfl
    simp only [MathVersion.map, h, h2, MathType.toU8, MathVersion._codepoints, List.getD_cons_zero,
      add32, Nat.zero_add]
    exact Nat.mod_eq_of_lt hc

/-- Witness of C1 at the alphabet mathbf and the codepoint `'b'`. -/
theorem C1_map_is_base_plus_offset_witness :
    (98 : Nat) < 2 ^ 32 ∧
    (MathVersion.mk 0x1D7CE 0x1D41A 0x1D400 0x1D6C2 0x1D6A8).map 98 = 0x1D41A + 1 :=
  ⟨by decide,
   (C1_map_is_base_plus_offset (MathVersion.mk 0x1D7CE 0x1D41A 0x1D400 0x1D6C2 0x1D6A8) 98
      (by decide)).2.2.2.1⟩

/-- C2: `ofChar` returns (digit, c - '0') exactly on '0'..'9', (latinSmall, c - 'a')
exactly on 'a'..'z', (latinCapital, c - 'A') exactly on 'A'..'Z', (greekSmall, c - 0x03B1)
exactly on U+03B1..U+03C9, (greekCapital, c - 0x0391) exactly on U+0391..U+03A9, and
(none, c) exactly outside these five ranges; the offset is at most 9, 25, 25, 24, 24 in
the five classes. -/
theorem C2_ofChar_classes (c : Nat) :
    (MathVersion.ofChar c = (MathType.digit, c - 48) ↔ 48 ≤ c ∧ c ≤ 57) ∧
    (MathVersion.ofChar c = (MathType.latinSmall, c - 97) ↔ 97 ≤ c ∧ c ≤ 122) ∧
    (MathVersion.ofChar c = (MathType.latinCapital, c - 65) ↔ 65 ≤ c ∧ c ≤ 90) ∧
    (MathVersion.ofChar c = (MathType.greekSmall, c - 0x03B1) ↔ 0x03B1 ≤ c ∧ c ≤ 0x03C9) ∧
    (MathVersion.ofChar c = (MathType.greekCapital, c - 0x0391) ↔ 0x0391 ≤ c ∧ c ≤ 0x03A9) ∧
    (MathVersion.ofChar c = (MathType.none, c) ↔
      ¬ (48 ≤ c ∧ c ≤ 57) ∧ ¬ (97 ≤ c ∧ c ≤ 122) ∧ ¬ (65 ≤ c ∧ c ≤ 90) ∧
      ¬ (0x03B1 ≤ c ∧ c ≤ 0x03C9) ∧ ¬ (0x0391 ≤ c ∧ c ≤ 0x03A9)) ∧
    ((MathVersion.ofChar c).1 = MathType.digit → (MathVersion.ofChar c).2 ≤ 9) ∧
    ((MathVersion.ofChar c).1 = MathType.latinSmall → (MathVersion.ofChar c).2 ≤ 25) ∧
    ((MathVersion.ofChar c).1 = MathType.latinCapital → (MathVersion.ofChar c).2 ≤ 25) ∧
    ((MathVersion.ofChar c).1 = MathType.greekSmall → (MathVersion.ofChar c).2 ≤ 24) ∧
    ((MathVersion.ofChar c).1 = MathType.greekCapital → (MathVersion.ofChar c).2 ≤ 24) := by
  unfold MathVersion.ofChar
  split_ifs <;> simp only [Prod.mk.injEq, reduceCtorEq, false_and, true_and, false_iff, true_iff,
    IsEmpty.forall_iff, forall_const, and_true, true_implies] <;> omega

/-! ## Theorems: the glue table -/

/-- C3: for every pair of atom classes that is not a "never occurs" cell of the glue table
and every style, the digit of the table lies in 0..3 and `classify` returns the glue of the
catalog at that digit: 0 is default, 1 is thin, 2 is med, 3 is thick. -/
theorem C3_classify_in_catalog (a b : AtomType) (s : TexStyle)
    (h : neverOccurs a b = false) :
    ∃ d, tableDigit a b s = some d ∧ d ≤ 3 ∧
      classify a b s =
        [some (g "default" 0 0 0), some (g "thin" 3 0 0), some (g "med" 4 4 2),
          some (g "thick" 5 0 5)].getD d none ∧
      ∃ gl, classify a b s = some gl ∧ gl ∈ _glueTypes := by
  revert a b s
  decide

/-- Witness of C3 at the cell (ordinary, operator) in text style. -/
theorem C3_classify_in_catalog_witness :
    neverOccurs AtomType.ordinary AtomType.operator = false ∧
    ∃ d, tableDigit AtomType.ordinary AtomType.operator TexStyle.text = some d ∧ d ≤ 3 ∧
      classify AtomType.ordinary AtomType.operator TexStyle.text =
        [some (g "default" 0 0 0), some (g "thin" 3 0 0), some (g "med" 4 4 2),
          some (g "thick" 5 0 5)].getD d none ∧
      ∃ gl, classify AtomType.ordinary AtomType.operator TexStyle.text = some gl ∧
        gl ∈ _glueTypes :=
  ⟨by decide,
   C3_classify_in_catalog AtomType.ordinary AtomType.operator TexStyle.text (by decide)⟩

/-- C4: for every suppressible cell of the glue table (an entry the comment table prints in
parentheses), `classify` gives the same glue in display and in text style, and the default
glue in script and in scriptscript style. -/
theorem C4_suppressible_cells (a b : AtomType) (h : suppressible a b = true) :
    classify a b TexStyle.display = classify a b TexStyle.text ∧
    classify a b TexStyle.script = some (g "default" 0 0 0) ∧
    classify a b TexStyle.scriptScript = some (g "default" 0 0 0) := by
  revert a b
  decide

/-- Witness of C4 at the cell (ordinary, binary), printed `(2)` in the comment table. -/
theorem C4_suppressible_cells_witness :
    suppressible AtomType.ordinary AtomType.binary = true ∧
    classify AtomType.ordinary AtomType.binary TexStyle.display =
      classify AtomType.ordinary AtomType.binary TexStyle.text ∧
    classify AtomType.ordinary AtomType.binary TexStyle.script = some (g "default" 0 0 0) ∧
    classify AtomType.ordinary AtomType.binary TexStyle.scriptScript =
      some (g "default" 0 0 0) :=
  ⟨by decide, C4_suppressible_cells AtomType.ordinary AtomType.binary (by decide)⟩

theorem StrMap.find_cons {α : Type} (k0 : String) (v0 : sptr α) (m : StrMap α) (k : String) :
    StrMap.find ((k0, v0) :: m) k = if k = k0 then some v0 else StrMap.find m k := by
  unfold StrMap.find
  rw [List.lookup_cons]
  by_cases h : k = k0
  · simp [h]
  · have hb : (k == k0) = false := by simpa using h
    simp [h, hb]

theorem StrMap.find_append_single {α : Type} (m : StrMap α) (k0 : String) (v0 : sptr α)
    (k : String) :
    StrMap.find (m ++ [(k0, v0)]) k =
      match StrMap.find m k with
      | some x => some x
      | none => if k = k0 then some v0 else none := by
  induction m with
  | nil =>
    have h0 : StrMap.find ([] : StrMap α) k = none := rfl
    rw [List.nil_append, StrMap.find_cons, h0]
  | cons e m ih =>
    obtain ⟨k1, v1⟩ := e
    rw [List.cons_append, StrMap.find_cons, StrMap.find_cons]
    by_cases h : k = k1
    · simp [h]
    · simp only [h, if_false]
      exact ih

theorem StrMap.find_assign {α : Type} (m : StrMap α) (k : String) (v : sptr α) (k1 : String) :
    StrMap.find (StrMap.assign m k v) k1 = if k1 = k then some v else StrMap.find m k1 := by
  induction m with
  | nil =>
    rw [StrMap.assign, StrMap.find_cons]
  | cons e m ih =>
    obtain ⟨k0, v0⟩ := e
    rw [StrMap.assign]
    by_cases h0 : k0 = k
    · subst h0
      simp only [if_true, StrMap.find_cons]
      by_cases h1 : k1 = k0 <;> simp [h1]
    · simp only [h0, if_false, StrMap.find_cons, ih]
      by_cases h1 : k1 = k0
      · have h2 : k1 ≠ k := fun h => h0 (h1.symm.trans h)
        subst h1
        simp [h0]
      · simp [h1]

theorem StrMap.index_of_find_some {α : Type} (m : StrMap α) (k : String) (v : sptr α)
    (h : StrMap.find m k = some v) : StrMap.index m k = (v, m) := by
  unfold StrMap.index
  rw [h]

theorem StrMap.index_of_find_none {α : Type} (m : StrMap α) (k : String)
    (h : StrMap.find m k = none) : StrMap.index m k = (none, m ++ [(k, none)]) := by
  unfold StrMap.index
  rw [h]

theorem StrMap.index_fst {α : Type} (m : StrMap α) (k : String) :
    (StrMap.index m k).1 = (StrMap.find m k).join := by
  unfold StrMap.index
  cases h : StrMap.find m k <;> rfl

theorem StrMap.find_index_snd {α : Type} (m : StrMap α) (k k1 : String) :
    (StrMap.find (StrMap.index m k).2 k1).join = (StrMap.find m k1).join := by
  unfold StrMap.index
  cases h : StrMap.find m k with
  | some v => rfl
  | none =>
    simp only [StrMap.find_append_single]
    cases h1 : StrMap.find m k1 with
    | some x => rfl
    | none =>
      by_cases h2 : k1 = k <;> simp [h2]

/-! ## Theorems: character resolution -/

/-- The math-mode branch when the version name is bound to a non-null alphabet. -/
theorem getCharMath_of_bound (glyphId : Otf → Nat → Int) (ctx : FontContext) (c : Nat)
    (v : String) (V : MathVersion) (F : OtfFont) (hF : ctx._mathFont = some F)
    (hV : StrMap.find ctx._mathVersions v = some (some V)) :
    ctx.getCharMath glyphId c v =
      some (Char.mk c (V.map c) F._id (glyphId F._otf (V.map c)), ctx) := by
  unfold FontContext.getCharMath
  rw [StrMap.index_of_find_some _ _ _ hV]
  cases ctx
  simp only at hF
  subst hF
  rfl

/-- The math-mode branch when the version name is empty, is no key, or is bound to a null
pointer: the alphabet is the one bound to the empty name. -/
theorem getCharMath_fallback (glyphId : Otf → Nat → Int) (ctx : FontContext) (c : Nat)
    (name : String) (E : MathVersion) (F : OtfFont) (hF : ctx._mathFont = some F)
    (hE : StrMap.find ctx._mathVersions "" = some (some E))
    (hname : name = "" ∨ StrMap.find ctx._mathVersions name = none ∨
      StrMap.find ctx._mathVersions name = some none) :
    ∃ ctx1, ctx.getCharMath glyphId c name =
      some (Char.mk c (E.map c) F._id (glyphId F._otf (E.map c)), ctx1) := by
  rcases hname with h | h | h
  · subst h
    exact ⟨ctx, getCharMath_of_bound glyphId ctx c "" E F hF hE⟩
  · have hE2 : StrMap.find (ctx._mathVersions ++ [(name, none)]) "" = some (some E) := by
      rw [StrMap.find_append_single, hE]
    unfold FontContext.getCharMath
    rw [StrMap.index_of_find_none _ _ h]
    simp only [StrMap.index_of_find_some _ _ _ hE2, hF]
    exact ⟨_, rfl⟩
  · unfold FontContext.getCharMath
    rw [StrMap.index_of_find_some _ _ _ h]
    simp only [StrMap.index_of_find_some _ _ _ hE, hF]
    exact ⟨_, rfl⟩

/-- C6: with an active math font `F` and a version name `v` that is a key of the
math-version catalog bound to the alphabet `V`, math-mode `getChar(c, v)` returns the Char
with original codepoint `c`, display codepoint `V.map(c)`, font id the id of `F` and glyph
id the glyph of `F` for `V.map(c)`; the registry is left as it was. -/
theorem C6_getChar_math_bound_version (glyphId : Otf → Nat → Int) (ctx : FontContext)
    (c : Nat) (v : String) (V : MathVersion) (F : OtfFont) (hF : ctx._mathFont = some F)
    (hV : StrMap.find ctx._mathVersions v = some (some V)) :
    ctx.getChar glyphId c v true =
      some (Char.mk c (V.map c) F._id (glyphId F._otf (V.map c)), ctx) := by
  unfold FontContext.getChar
  simp only [if_true]
  exact getCharMath_of_bound glyphId ctx c v V F hF hV

/-- Witness of C6: after loading and selecting a math font, `'b'` under mathbf. -/
theorem C6_getChar_math_bound_version_witness :
    ((FontContext.initial.addMathFont ("math", "font.otf", "font.clm")).selectMathFont
        "math").getChar (fun _ u => Int.ofNat u) 98 "mathbf" true =
      some (Char.mk 98 (0x1D41A + 1) 0 (0x1D41A + 1),
        (FontContext.initial.addMathFont ("math", "font.otf", "font.clm")).selectMathFont
          "math") :=
  C6_getChar_math_bound_version (fun _ u => Int.ofNat u)
    ((FontContext.initial.addMathFont ("math", "font.otf", "font.clm")).selectMathFont "math")
    98 "mathbf" (MathVersion.mk 0x1D7CE 0x1D41A 0x1D400 0x1D6C2 0x1D6A8)
    (OtfFont.mk 0 "font.otf" (Otf.mk "font.clm")) (by decide) (by decide)

/-- C7, refuted as stated: after a math font is loaded and selected and
`setMathStyle("upright")` has rebound the default key "mathnormal" to the upright alphabet,
math-mode `getChar('a', name)` for the unrecognized name "nosuch" and for the empty name
has display codepoint U+1D44E, the image of `'a'` under the TeX alphabet still bound to the
empty name, and not `'a'`, its image under the default version. -/
theorem C7_fallback_ignores_default_key :
    StrMap.find
        (FontContext.initial.run [Op.addMathFont ("math", "font.otf", "font.clm"),
          Op.selectMathFont "math", Op.setMathStyle "upright"])._mathVersions "nosuch" = none ∧
    StrMap.find
        (FontContext.initial.run [Op.addMathFont ("math", "font.otf", "font.clm"),
          Op.selectMathFont "math", Op.setMathStyle "upright"])._mathVersions
        _defaultVersionName = some (some (MathVersion.mk 48 97 65 0x03B1 0x0391)) ∧
    Option.map (fun r => r.1._mappedCode)
        ((FontContext.initial.run [Op.addMathFont ("math", "font.otf", "font.clm"),
          Op.selectMathFont "math", Op.setMathStyle "upright"]).getChar
          (fun _ u => Int.ofNat u) 97 "nosuch" true) = some 0x1D44E ∧
    Option.map (fun r => r.1._mappedCode)
        ((FontContext.initial.run [Op.addMathFont ("math", "font.otf", "font.clm"),
          Op.selectMathFont "math", Op.setMathStyle "upright"]).getChar
          (fun _ u => Int.ofNat u) 97 "nosuch" true) ≠
      some ((MathVersion.mk 48 97 65 0x03B1 0x0391).map 97) ∧
    Option.map (fun r => r.1._mappedCode)
        ((FontContext.initial.run [Op.addMathFont ("math", "font.otf", "font.clm"),
          Op.selectMathFont "math", Op.setMathStyle "upright"]).getChar
          (fun _ u => Int.ofNat u) 97 "" true) ≠
      some ((MathVersion.mk 48 97 65 0x03B1 0x0391).map 97) := by
  decide

/-- C7, amended: with an active math font `F`, for every version name that is empty, is
not a key of the math-version catalog, or is bound to a null pointer, math-mode
`getChar(c, name)` uses the alphabet `E` bound to the empty-name key: the display
codepoint is `E.map(c)`. `setMathStyle` rebinds only the default key "mathnormal", so
after `setMathStyle(s)`, for every `s`, `getChar(c, name)` resolves to the same Char. -/
theorem C7_getChar_falls_back_to_empty_name (glyphId : Otf → Nat → Int) (ctx : FontContext)
    (c : Nat) (name : String) (D E : MathVersion) (F : OtfFont)
    (hF : ctx._mathFont = some F)
    (hD : StrMap.find ctx._mathVersions _defaultVersionName = some (some D))
    (hE : StrMap.find ctx._mathVersions _emptyVersionName = some (some E))
    (hname : name = "" ∨ StrMap.find ctx._mathVersions name = none ∨
      StrMap.find ctx._mathVersions name = some none) :
    (∃ ctx1, ctx.getChar glyphId c name true =
      some (Char.mk c (E.map c) F._id (glyphId F._otf (E.map c)), ctx1)) ∧
    (∀ s, ∃ ctx2, (ctx.setMathStyle s).getChar glyphId c name true =
      some (Char.mk c (E.map c) F._id (glyphId F._otf (E.map c)), ctx2)) := by
  have hne : name ≠ _defaultVersionName := by
    rcases hname with h | h | h
    · rw [h]; decide
    · intro h1; rw [h1, hD] at h; exact absurd h (by simp)
    · intro h1; rw [h1, hD] at h; exact absurd h (by simp)
  unfold FontContext.getChar
  simp only [if_true]
  refine ⟨getCharMath_fallback glyphId ctx c name E F hF hE hname, fun s => ?_⟩
  unfold FontContext.setMathStyle
  cases hs : StrMap.find ctx._mathStyles s with
  | none => exact getCharMath_fallback glyphId ctx c name E F hF hE hname
  | some second =>
    have h1 : StrMap.find (StrMap.assign ctx._mathVersions _defaultVersionName second) "" =
        some (some E) := by
      rw [StrMap.find_assign, if_neg (by decide)]
      exact hE
    have h2 : name = "" ∨
        StrMap.find (StrMap.assign ctx._mathVersions _defaultVersionName second) name = none ∨
        StrMap.find (StrMap.assign ctx._mathVersions _defaultVersionName second) name =
          some none := by
      rw [StrMap.find_assign, if_neg hne]
      exact hname
    exact getCharMath_fallback glyphId
      { ctx with _mathVersions := StrMap.assign ctx._mathVersions _defaultVersionName second }
      c name E F hF h1 h2

/-- Witness of C7 amended: the state of the refutation and the name "nosuch". -/
theorem C7_getChar_falls_back_to_empty_name_witness :
    (∃ ctx1,
      (FontContext.initial.run [Op.addMathFont ("math", "font.otf", "font.clm"),
        Op.selectMathFont "math", Op.setMathStyle "upright"]).getChar
          (fun _ u => Int.ofNat u) 97 "nosuch" true =
        some (Char.mk 97 0x1D44E 0 0x1D44E, ctx1)) :=
  (C7_getChar_falls_back_to_empty_name (fun _ u => Int.ofNat u)
    (FontContext.initial.run [Op.addMathFont ("math", "font.otf", "font.clm"),
      Op.selectMathFont "math", Op.setMathStyle "upright"])
    97 "nosuch" (MathVersion.mk 48 97 65 0x03B1 0x0391)
    (MathVersion.mk 48 0x1D44E 0x1D434 0x1D6FC 0x0391)
    (OtfFont.mk 0 "font.otf" (Otf.mk "font.clm")) (by decide) (by decide) (by decide)
    (Or.inr (Or.inl (by decide)))).1

/-- The font chosen by the text-mode branch is the first available font of the spec. -/
theorem text_font_eq_firstAvailable (family : FontFamily) (mathFont : sptr OtfFont)
    (style : String) :
    (if (if (StrMap.index family._styles style).1.isNone
          then StrMap.index (StrMap.index family._styles style).2 ""
          else StrMap.index family._styles style).1.isNone
      then mathFont
      else (if (StrMap.index family._styles style).1.isNone
          then StrMap.index (StrMap.index family._styles style).2 ""
          else StrMap.index family._styles style).1) =
      firstAvailableFont family mathFont style := by
  unfold firstAvailableFont
  cases h : (StrMap.find family._styles style).join with
  | some font =>
    have h1 : (StrMap.index family._styles style).1 = some font := by
      rw [StrMap.index_fst, h]
    simp [h1]
  | none =>
    have h1 : (StrMap.index family._styles style).1 = none := by
      rw [StrMap.index_fst, h]
    have h2 : (StrMap.index (StrMap.index family._styles style).2 "").1 =
        (StrMap.find family._styles "").join := by
      rw [StrMap.index_fst, StrMap.find_index_snd]
    simp only [h1, Option.isNone_none, if_true, h2]
    cases h3 : (StrMap.find family._styles "").join <;> simp

/-- The text-mode branch with an active family resolves on the first available font. -/
theorem getCharText_firstAvailable (glyphId : Otf → Nat → Int) (ctx : FontContext) (c : Nat)
    (styleName : String) (p : Nat) (family : FontFamily) (font : OtfFont)
    (hp : ctx._mainFont = some p) (hfam : ctx.heap[p]? = some family)
    (hfont : firstAvailableFont family ctx._mathFont styleName = some font) :
    ∃ ctx1, ctx.getCharText glyphId c styleName =
      some (Char.mk c c font._id (glyphId font._otf c), ctx1) := by
  unfold FontContext.getCharText
  simp only [hp, hfam, text_font_eq_firstAvailable, hfont]
  exact ⟨_, rfl⟩

/-- C8: text-mode `getChar(c, styleName)` with an active main family returns a Char whose
original and display codepoints are both `c`, whose font is the first available of: the
font of the family for `styleName`, the font of the family for the empty style name, the
active math font; the glyph id is the glyph of that font for `c`. And from any registry
state, after `addMainFont("roman", [("", fontA, metaA)])` and `selectMainFont("roman")`,
text-mode `getChar('x', "")` has the font id assigned to `fontA` by the load. -/
theorem C8_getChar_text_first_available (glyphId : Otf → Nat → Int) (ctx : FontContext)
    (c : Nat) (styleName : String) (p : Nat) (family : FontFamily) (font : OtfFont)
    (hp : ctx._mainFont = some p) (hfam : ctx.heap[p]? = some family)
    (hfont : firstAvailableFont family ctx._mathFont styleName = some font) :
    (∃ ctx1, ctx.getChar glyphId c styleName false =
      some (Char.mk c c font._id (glyphId font._otf c), ctx1)) ∧
    (∀ (ctx0 : FontContext) (fontA metaA : String),
      (ctx0.addMainFont "roman" [("", fontA, metaA)])._fonts =
        ctx0._fonts ++ [OtfFont.mk ctx0._lastId fontA (Otf.mk metaA)] ∧
      ∃ ctx2,
        ((ctx0.addMainFont "roman" [("", fontA, metaA)]).selectMainFont "roman").getChar
            glyphId 120 "" false =
          some (Char.mk 120 120 ctx0._lastId (glyphId (Otf.mk metaA) 120), ctx2)) := by
  unfold FontContext.getChar
  simp only [Bool.false_eq_true, if_false]
  refine ⟨getCharText_firstAvailable glyphId ctx c styleName p family font hp hfam hfont,
    fun ctx0 fontA metaA => ⟨rfl, ?_⟩⟩
  have hidx : StrMap.index (StrMap.assign ctx0._mainFonts "roman" (some ctx0.heap.length))
      "roman" = (some ctx0.heap.length,
        StrMap.assign ctx0._mainFonts "roman" (some ctx0.heap.length)) := by
    apply StrMap.index_of_find_some
    rw [StrMap.find_assign, if_pos rfl]
  apply getCharText_firstAvailable glyphId _ 120 "" ctx0.heap.length
    (FontFamily.mk [("", some (OtfFont.mk ctx0._lastId fontA (Otf.mk metaA)))])
    (OtfFont.mk ctx0._lastId fontA (Otf.mk metaA))
  · simp only [FontContext.selectMainFont, FontContext.addMainFont,
      FontContext.addMainFontLoop, hidx]
  · simp only [FontContext.selectMainFont, FontContext.addMainFont,
      FontContext.addMainFontLoop, StrMap.assign, OtfFont.new]
    simp
  · rfl

/-- Witness of C8: the family "roman" holding one font under the empty style name. -/
theorem C8_getChar_text_first_available_witness :
    ∃ ctx1,
      ((FontContext.initial.addMainFont "roman" [("", "fontA", "metaA")]).selectMainFont
          "roman").getChar (fun _ u => Int.ofNat u) 120 "" false =
        some (Char.mk 120 120 0 120, ctx1) :=
  (C8_getChar_text_first_available (fun _ u => Int.ofNat u)
    ((FontContext.initial.addMainFont "roman" [("", "fontA", "metaA")]).selectMainFont "roman")
    120 "" 0 (FontFamily.mk [("", some (OtfFont.mk 0 "fontA" (Otf.mk "metaA")))])
    (OtfFont.mk 0 "fontA" (Otf.mk "metaA")) (by decide) (by decide) (by decide)).1

/-! ## Theorems: the font registry -/

theorem IdsAreIndices_push (ctx : FontContext) (fontFile clmFile : String)
    (h : ctx.IdsAreIndices) (ctx1 : FontContext)
    (hid : ctx1._lastId = ctx._lastId + 1)
    (hfonts : ctx1._fonts = ctx._fonts ++ [OtfFont.new ctx._lastId fontFile clmFile]) :
    ctx1.IdsAreIndices := by
  obtain ⟨h1, h2⟩ := h
  refine ⟨?_, ?_⟩
  · rw [hid, hfonts, h1]
    simp
  · intro i f hf
    rw [hfonts] at hf
    by_cases hi : i < ctx._fonts.length
    · rw [List.getElem?_append_left hi] at hf
      exact h2 i f hf
    · have hle : ctx._fonts.length ≤ i := Nat.le_of_not_lt hi
      rw [List.getElem?_append_right hle] at hf
      by_cases h0 : i - ctx._fonts.length = 0
      · rw [h0] at hf
        simp only [List.getElem?_cons_zero, Option.some.injEq] at hf
        rw [← hf]
        show ctx._lastId = (i : Int)
        rw [h1]
        have : i = ctx._fonts.length := by omega
        rw [this]
      · obtain ⟨n, hn⟩ := Nat.exists_eq_succ_of_ne_zero h0
        rw [hn] at hf
        simp at hf

theorem addMainFontLoop_spec (params : List FontSpec) (ctx : FontContext) (f : FontFamily)
    (h : ctx.IdsAreIndices) :
    (ctx.addMainFontLoop f params).1.IdsAreIndices ∧
    (∃ added, (ctx.addMainFontLoop f params).1._fonts = ctx._fonts ++ added ∧
      added.length = params.length) ∧
    ctx._lastId ≤ (ctx.addMainFontLoop f params).1._lastId := by
  induction params generalizing ctx f with
  | nil => exact ⟨h, ⟨[], by simp [FontContext.addMainFontLoop], rfl⟩, le_refl _⟩
  | cons e rest ih =>
    obtain ⟨style, font, clm⟩ := e
    rw [FontContext.addMainFontLoop]
    have hstep := IdsAreIndices_push ctx font clm h
      { ctx with _lastId := ctx._lastId + 1,
                 _fonts := ctx._fonts ++ [OtfFont.new ctx._lastId font clm] } rfl rfl
    obtain ⟨i1, ⟨added, i2, i3⟩, i4⟩ := ih _
      (FontFamily.mk (StrMap.assign f._styles style (some (OtfFont.new ctx._lastId font clm))))
      hstep
    refine ⟨i1, ⟨OtfFont.new ctx._lastId font clm :: added, ?_, ?_⟩, ?_⟩
    · rw [i2]
      simp
    · simp [i3]
    · have : ctx._lastId ≤ ctx._lastId + 1 := by omega
      exact le_trans this i4

theorem step_spec (ctx : FontContext) (op : Op) (h : ctx.IdsAreIndices) :
    (ctx.step op).IdsAreIndices ∧ ctx._fonts <+: (ctx.step op)._fonts ∧
    ctx._lastId ≤ (ctx.step op)._lastId := by
  cases op with
  | addMainFont versionName params =>
    obtain ⟨i1, ⟨added, i2, _⟩, i4⟩ := addMainFontLoop_spec params ctx (FontFamily.mk []) h
    exact ⟨⟨i1.1, i1.2⟩, ⟨added, i2.symm⟩, i4⟩
  | addMathFont params =>
    refine ⟨IdsAreIndices_push ctx params.2.1 params.2.2 h _ rfl rfl, ⟨_, rfl⟩, ?_⟩
    show ctx._lastId ≤ ctx._lastId + 1
    omega
  | selectMainFont versionName => exact ⟨⟨h.1, h.2⟩, List.prefix_refl _, le_refl _⟩
  | selectMathFont versionName => exact ⟨⟨h.1, h.2⟩, List.prefix_refl _, le_refl _⟩
  | setMathStyle styleName =>
    have hs : (ctx.step (Op.setMathStyle styleName))._fonts = ctx._fonts ∧
        (ctx.step (Op.setMathStyle styleName))._lastId = ctx._lastId := by
      simp only [FontContext.step, FontContext.setMathStyle]
      cases StrMap.find ctx._mathStyles styleName <;> exact ⟨rfl, rfl⟩
    refine ⟨⟨?_, ?_⟩, ?_, ?_⟩
    · rw [hs.1, hs.2]; exact h.1
    · rw [hs.1]; exact h.2
    · rw [hs.1]
    · exact le_of_eq hs.2.symm

theorem run_IdsAreIndices (ops : List Op) (ctx : FontContext) (h : ctx.IdsAreIndices) :
    (ctx.run ops).IdsAreIndices := by
  induction ops generalizing ctx with
  | nil => exact h
  | cons op rest ih => exact ih (ctx.step op) (step_spec ctx op h).1

/-- C9: in every registry state reached from the initial state by a sequence of
`addMainFont`, `addMathFont`, `selectMainFont`, `selectMathFont` and `setMathStyle` calls,
the id counter equals the length of the font list and the font at index `i` has id `i`;
so ids grow strictly with the order of loading, no two loaded fonts share an id, and a
further call keeps every loaded font in place and never lowers the counter. -/
theorem C9_ids_are_indices (ops : List Op) :
    (FontContext.initial.run ops)._lastId = (FontContext.initial.run ops)._fonts.length ∧
    (∀ (i : Nat) (f : OtfFont), (FontContext.initial.run ops)._fonts[i]? = some f → f._id = i) ∧
    (∀ (i j : Nat) (f g : OtfFont), (FontContext.initial.run ops)._fonts[i]? = some f →
      (FontContext.initial.run ops)._fonts[j]? = some g → i < j → f._id < g._id) ∧
    (∀ (i j : Nat) (f g : OtfFont), (FontContext.initial.run ops)._fonts[i]? = some f →
      (FontContext.initial.run ops)._fonts[j]? = some g → f._id = g._id → i = j) ∧
    (∀ op, (FontContext.initial.run ops)._fonts <+:
        ((FontContext.initial.run ops).step op)._fonts ∧
      (FontContext.initial.run ops)._lastId ≤
        ((FontContext.initial.run ops).step op)._lastId) := by
  have h0 : FontContext.initial.IdsAreIndices := by
    refine ⟨rfl, ?_⟩
    intro i f hf
    simp [FontContext.initial] at hf
  have h := run_IdsAreIndices ops FontContext.initial h0
  refine ⟨h.1, h.2, ?_, ?_, ?_⟩
  · intro i j f g hf hg hij
    rw [h.2 i f hf, h.2 j g hg]
    exact_mod_cast hij
  · intro i j f g hf hg hfg
    rw [h.2 i f hf, h.2 j g hg] at hfg
    exact_mod_cast hfg
  · intro op
    exact (step_spec _ op h).2

/-- C10: for every 32-bit signed `id`, `getFont(id)` returns a font exactly when
`0 <= id < count`, `count` being the length of the font list, and then it is the font at
index `id`; a negative `id` (such as -1) and an `id >= count` (such as `count`, when it
fits 32 bits) give a null pointer. The unsigned comparison alone already rejects a negative `id`. -/
theorem C10_getFont_bounds (ctx : FontContext) (id : Int)
    (hid : -2 ^ 31 ≤ id ∧ id < 2 ^ 31) :
    ((ctx.getFont id).isSome ↔ 0 ≤ id ∧ id < ctx._fonts.length) ∧
    (0 ≤ id → id < ctx._fonts.length → ctx.getFont id = ctx._fonts[id.toNat]?) ∧
    (id < 0 → ctx.getFont id = none) ∧
    ((ctx._fonts.length : Int) ≤ id → ctx.getFont id = none) ∧
    ctx.getFont (-1) = none ∧
    (ctx._fonts.length < 2 ^ 31 → ctx.getFont ctx._fonts.length = none) ∧
    (id < 0 → ctx._fonts.length < 2 ^ 63 → toSizeT id ≥ ctx._fonts.length) := by
  have hpos : 0 ≤ id → toSizeT id = id.toNat := by
    intro h
    unfold toSizeT
    congr 1
    omega
  have hneg : ctx.getFont (-1) = none := by
    unfold FontContext.getFont
    rw [if_pos (Or.inr (by decide))]
  have hcount : ctx._fonts.length < 2 ^ 31 → ctx.getFont ctx._fonts.length = none := by
    intro hl
    unfold FontContext.getFont toSizeT
    rw [if_pos]
    left
    omega
  refine ⟨?_, ?_, ?_, ?_, hneg, hcount, ?_⟩
  · unfold FontContext.getFont
    by_cases h0 : id < 0
    · rw [if_pos (Or.inr h0)]
      simp only [Option.isSome_none, Bool.false_eq_true, false_iff, not_and, not_lt]
      intro h2
      omega
    · rw [hpos (by omega)]
      by_cases h1 : id.toNat ≥ ctx._fonts.length
      · rw [if_pos (Or.inl h1)]
        simp only [Option.isSome_none, Bool.false_eq_true, false_iff, not_and, not_lt]
        intro h2
        omega
      · rw [if_neg (by omega)]
        have h2 : id.toNat < ctx._fonts.length := by omega
        rw [List.getElem?_eq_getElem h2]
        simp only [Option.isSome_some, true_iff]
        omega
  · intro h0 h1
    unfold FontContext.getFont
    rw [hpos h0, if_neg (by omega)]
  · intro h0
    unfold FontContext.getFont
    rw [if_pos (Or.inr h0)]
  · intro h1
    unfold FontContext.getFont
    by_cases h0 : id < 0
    · rw [if_pos (Or.inr h0)]
    · rw [hpos (by omega), if_pos (Or.inl (by omega))]
  · intro h0 hl
    unfold toSizeT
    omega

/-- Witness of C10: the id 0 in a registry holding one font. -/
theorem C10_getFont_bounds_witness :
    (FontContext.initial.addMathFont ("math", "font.otf", "font.clm")).getFont 0 =
      some (OtfFont.mk 0 "font.otf" (Otf.mk "font.clm")) ∧
    (FontContext.initial.addMathFont ("math", "font.otf", "font.clm")).getFont (-1) = none ∧
    (FontContext.initial.addMathFont ("math", "font.otf", "font.clm")).getFont 1 = none :=
  ⟨(C10_getFont_bounds (FontContext.initial.addMathFont ("math", "font.otf", "font.clm")) 0
      (by decide)).2.1 (by decide) (by decide),
   (C10_getFont_bounds (FontContext.initial.addMathFont ("math", "font.otf", "font.clm")) (-1)
      (by decide)).2.2.1 (by decide),
   (C10_getFont_bounds (FontContext.initial.addMathFont ("math", "font.otf", "font.clm")) 1
      (by decide)).2.2.2.1 (by decide)⟩

/-! ## Theorems: re-registration, frames and selection -/

/-- A lookup that succeeds keeps its result when fonts are appended to the list. -/
theorem getFont_append (ctx ctx1 : FontContext) (added : List OtfFont) (id : Int)
    (hfonts : ctx1._fonts = ctx._fonts ++ added) (h : (ctx.getFont id).isSome = true) :
    ctx1.getFont id = ctx.getFont id := by
  unfold FontContext.getFont at h ⊢
  by_cases hc : toSizeT id ≥ ctx._fonts.length ∨ id < 0
  · rw [if_pos hc] at h
    simp at h
  · have hlt : toSizeT id < ctx._fonts.length := by omega
    have hc1 : ¬ (toSizeT id ≥ ctx1._fonts.length ∨ id < 0) := by
      rw [hfonts, List.length_append]
      omega
    rw [if_neg hc, if_neg hc1, hfonts, List.getElem?_append_left hlt]

/-- The lookup of the id equal to the position of a font in the list. -/
theorem getFont_at_length (ctx : FontContext) (front back : List OtfFont) (f : OtfFont)
    (hfonts : ctx._fonts = front ++ f :: back) (hlen : front.length < 2 ^ 31) :
    ctx.getFont front.length = some f := by
  unfold FontContext.getFont
  have hs : toSizeT (front.length : Int) = front.length := by
    unfold toSizeT
    omega
  have hc : ¬ (toSizeT (front.length : Int) ≥ ctx._fonts.length ∨ (front.length : Int) < 0) := by
    rw [hs, hfonts, List.length_append, List.length_cons]
    omega
  rw [if_neg hc, hs, hfonts, List.getElem?_append_right (le_refl _)]
  simp

/-- The loop of `addMainFont` appends one font per entry and touches nothing but
`_lastId` and `_fonts`. -/
theorem addMainFontLoop_frame (params : List FontSpec) (ctx : FontContext) (f : FontFamily) :
    (∃ added, (ctx.addMainFontLoop f params).1._fonts = ctx._fonts ++ added ∧
      added.length = params.length) ∧
    (ctx.addMainFontLoop f params).1._mathFont = ctx._mathFont ∧
    (ctx.addMainFontLoop f params).1._mainFont = ctx._mainFont ∧
    (ctx.addMainFontLoop f params).1._mathVersions = ctx._mathVersions ∧
    (ctx.addMainFontLoop f params).1._mathStyles = ctx._mathStyles ∧
    (ctx.addMainFontLoop f params).1._mathFonts = ctx._mathFonts := by
  induction params generalizing ctx f with
  | nil => exact ⟨⟨[], by simp [FontContext.addMainFontLoop], rfl⟩, rfl, rfl, rfl, rfl, rfl⟩
  | cons e rest ih =>
    obtain ⟨style, font, clm⟩ := e
    rw [FontContext.addMainFontLoop]
    obtain ⟨⟨added, i1, i2⟩, i3, i4, i5, i6, i7⟩ := ih
      { ctx with _lastId := ctx._lastId + 1,
                 _fonts := ctx._fonts ++ [OtfFont.new ctx._lastId font clm] }
      (FontFamily.mk (StrMap.assign f._styles style (some (OtfFont.new ctx._lastId font clm))))
    refine ⟨⟨OtfFont.new ctx._lastId font clm :: added, ?_, ?_⟩, i3, i4, i5, i6, i7⟩
    · rw [i1]
      simp
    · simp [i2]

/-- Every mutating call appends to the font list. -/
theorem step_fonts_append (ctx : FontContext) (op : Op) :
    ∃ added, (ctx.step op)._fonts = ctx._fonts ++ added := by
  cases op with
  | addMainFont versionName params =>
    obtain ⟨⟨added, i1, _⟩, _⟩ := addMainFontLoop_frame params ctx (FontFamily.mk [])
    exact ⟨added, i1⟩
  | addMathFont params => exact ⟨_, rfl⟩
  | selectMainFont versionName => exact ⟨[], (List.append_nil _).symm⟩
  | selectMathFont versionName => exact ⟨[], (List.append_nil _).symm⟩
  | setMathStyle styleName =>
    refine ⟨[], ?_⟩
    simp only [FontContext.step, FontContext.setMathStyle, List.append_nil]
    cases StrMap.find ctx._mathStyles styleName <;> rfl

/-- A successful `getChar` leaves the font list as it was. -/
theorem getChar_fonts (glyphId : Otf → Nat → Int) (ctx : FontContext) (c : Nat)
    (style : String) (isMathMode : Bool) (r : Char × FontContext)
    (h : ctx.getChar glyphId c style isMathMode = some r) : r.2._fonts = ctx._fonts := by
  unfold FontContext.getChar at h
  cases isMathMode with
  | true =>
    simp only [if_true] at h
    unfold FontContext.getCharMath at h
    dsimp only at h
    cases h3 : ctx._mathFont with
    | none =>
      simp only [h3] at h
      split at h <;> exact absurd h (by simp)
    | some mathFont =>
      simp only [h3] at h
      split at h
      · exact absurd h (by simp)
      · simp only [Option.some.injEq] at h
        rw [← h]
  | false =>
    simp only [Bool.false_eq_true, if_false] at h
    unfold FontContext.getCharText at h
    cases h1 : ctx._mainFont with
    | none =>
      simp only [h1] at h
      exact absurd h (by simp)
    | some p =>
      simp only [h1] at h
      cases h2 : ctx.heap[p]? with
      | none =>
        simp only [h2] at h
        exact absurd h (by simp)
      | some family =>
        simp only [h2] at h
        split at h
        · exact absurd h (by simp)
        · simp only [Option.some.injEq] at h
          rw [← h]

/-- C12: the font list is append-only. For every mutating call (`addMainFont`,
`addMathFont`, `selectMainFont`, `selectMathFont`, `setMathStyle`) and for `getChar`, an id
that `getFont` resolves before the call resolves to the same font after it; `addMathFont`
grows the list by exactly one font and `addMainFont` with `n` entries by exactly `n`,
whether or not the version name was registered before. -/
theorem C12_fonts_append_only (ctx : FontContext) :
    (∀ (op : Op) (id : Int), (ctx.getFont id).isSome = true →
      (ctx.step op).getFont id = ctx.getFont id) ∧
    (∀ (glyphId : Otf → Nat → Int) (c : Nat) (style : String) (isMathMode : Bool)
      (r : Char × FontContext) (id : Int),
      ctx.getChar glyphId c style isMathMode = some r → r.2.getFont id = ctx.getFont id) ∧
    (∀ params : FontSpec,
      (ctx.addMathFont params)._fonts.length = ctx._fonts.length + 1) ∧
    (∀ (versionName : String) (params : List FontSpec),
      (ctx.addMainFont versionName params)._fonts.length =
        ctx._fonts.length + params.length) := by
  refine ⟨?_, ?_, ?_, ?_⟩
  · intro op id h
    obtain ⟨added, ha⟩ := step_fonts_append ctx op
    exact getFont_append ctx (ctx.step op) added id ha h
  · intro glyphId c style isMathMode r id h
    have hf := getChar_fonts glyphId ctx c style isMathMode r h
    unfold FontContext.getFont
    rw [hf]
  · intro params
    simp [FontContext.addMathFont]
  · intro versionName params
    obtain ⟨⟨added, i1, i2⟩, _⟩ := addMainFontLoop_frame params ctx (FontFamily.mk [])
    show (ctx.addMainFontLoop (FontFamily.mk []) params).1._fonts.length = _
    rw [i1, List.length_append, i2]

/-- Witness of C12: a registry holding one font, a second `addMathFont` under the same
version name, and the id 0. -/
theorem C12_fonts_append_only_witness :
    ((FontContext.initial.addMathFont ("math", "a.otf", "a.clm")).getFont 0).isSome = true ∧
    ((FontContext.initial.addMathFont ("math", "a.otf", "a.clm")).step
        (Op.addMathFont ("math", "b.otf", "b.clm"))).getFont 0 =
      (FontContext.initial.addMathFont ("math", "a.otf", "a.clm")).getFont 0 :=
  ⟨by decide,
   (C12_fonts_append_only (FontContext.initial.addMathFont ("math", "a.otf", "a.clm"))).1
     (Op.addMathFont ("math", "b.otf", "b.clm")) 0 (by decide)⟩

/-- A successful math-mode `getChar` reports the id of the active math font. -/
theorem getCharMath_fontId (glyphId : Otf → Nat → Int) (ctx : FontContext) (c : Nat)
    (style : String) (F : OtfFont) (r : Char × FontContext) (hF : ctx._mathFont = some F)
    (h : ctx.getCharMath glyphId c style = some r) : r.1._fontId = F._id := by
  unfold FontContext.getCharMath at h
  dsimp only at h
  simp only [hF] at h
  split at h
  · exact absurd h (by simp)
  · simp only [Option.some.injEq] at h
    rw [← h]

/-- C11: after `addMathFont` is called twice with the same version name `v`, the loads
getting the ids `i1 = _lastId` and `i2 = _lastId + 1`, and `selectMathFont(v)` is called,
the active math font and the binding of `v` in the math-font map are the second font, with
id `i2`, and not the first; every successful math-mode `getChar` reports the font id `i2`,
and it succeeds for every version name bound to an alphabet; `getFont(i1)` still returns
the first font and `getFont(i2)` the second. -/
theorem C11_reregistered_math_font (ctx s : FontContext) (v font1 clm1 font2 clm2 : String)
    (hinv : ctx.IdsAreIndices) (hlen : ctx._fonts.length + 1 < 2 ^ 31)
    (hs : s = ((ctx.addMathFont (v, font1, clm1)).addMathFont
      (v, font2, clm2)).selectMathFont v) :
    s._mathFont = some (OtfFont.mk (ctx._lastId + 1) font2 (Otf.mk clm2)) ∧
    StrMap.find s._mathFonts v =
      some (some (OtfFont.mk (ctx._lastId + 1) font2 (Otf.mk clm2))) ∧
    StrMap.find s._mathFonts v ≠ some (some (OtfFont.mk ctx._lastId font1 (Otf.mk clm1))) ∧
    (∀ (glyphId : Otf → Nat → Int) (c : Nat) (name : String) (r : Char × FontContext),
      s.getChar glyphId c name true = some r → r.1._fontId = ctx._lastId + 1) ∧
    (∀ (glyphId : Otf → Nat → Int) (c : Nat) (name : String) (V : MathVersion),
      StrMap.find s._mathVersions name = some (some V) →
      s.getChar glyphId c name true =
        some (Char.mk c (V.map c) (ctx._lastId + 1) (glyphId (Otf.mk clm2) (V.map c)), s)) ∧
    s.getFont ctx._lastId = some (OtfFont.mk ctx._lastId font1 (Otf.mk clm1)) ∧
    s.getFont (ctx._lastId + 1) = some (OtfFont.mk (ctx._lastId + 1) font2 (Otf.mk clm2)) := by
  have hidx : StrMap.index
      (StrMap.assign (StrMap.assign ctx._mathFonts v
        (some (OtfFont.mk ctx._lastId font1 (Otf.mk clm1)))) v
        (some (OtfFont.mk (ctx._lastId + 1) font2 (Otf.mk clm2)))) v =
      (some (OtfFont.mk (ctx._lastId + 1) font2 (Otf.mk clm2)),
        StrMap.assign (StrMap.assign ctx._mathFonts v
          (some (OtfFont.mk ctx._lastId font1 (Otf.mk clm1)))) v
          (some (OtfFont.mk (ctx._lastId + 1) font2 (Otf.mk clm2)))) := by
    apply StrMap.index_of_find_some
    rw [StrMap.find_assign, if_pos rfl]
  have hmf : s._mathFont = some (OtfFont.mk (ctx._lastId + 1) font2 (Otf.mk clm2)) := by
    rw [hs]
    simp only [FontContext.selectMathFont, FontContext.addMathFont, OtfFont.new, hidx]
  have hmap : StrMap.find s._mathFonts v =
      some (some (OtfFont.mk (ctx._lastId + 1) font2 (Otf.mk clm2))) := by
    rw [hs]
    simp only [FontContext.selectMathFont, FontContext.addMathFont, OtfFont.new, hidx]
    rw [StrMap.find_assign, if_pos rfl]
  have hfonts : s._fonts = ctx._fonts ++
      OtfFont.mk ctx._lastId font1 (Otf.mk clm1) ::
        [OtfFont.mk (ctx._lastId + 1) font2 (Otf.mk clm2)] := by
    rw [hs]
    simp [FontContext.selectMathFont, FontContext.addMathFont, OtfFont.new]
  have hfonts2 : s._fonts = (ctx._fonts ++ [OtfFont.mk ctx._lastId font1 (Otf.mk clm1)]) ++
      OtfFont.mk (ctx._lastId + 1) font2 (Otf.mk clm2) :: [] := by
    rw [hfonts]
    simp
  have hid : ctx._lastId = (ctx._fonts.length : Int) := hinv.1
  refine ⟨hmf, hmap, ?_, ?_, ?_, ?_, ?_⟩
  · rw [hmap]
    intro h
    simp only [Option.some.injEq, OtfFont.mk.injEq] at h
    omega
  · intro glyphId c name r h
    unfold FontContext.getChar at h
    simp only [if_true] at h
    exact getCharMath_fontId glyphId s c name _ r hmf h
  · intro glyphId c name V hV
    unfold FontContext.getChar
    simp only [if_true]
    exact getCharMath_of_bound glyphId s c name V _ hmf hV
  · have h1 := getFont_at_length s ctx._fonts _ _ hfonts (by omega)
    rw [← hid] at h1
    exact h1
  · have h2 := getFont_at_length s (ctx._fonts ++ [OtfFont.mk ctx._lastId font1 (Otf.mk clm1)])
      [] _ hfonts2 (by simp only [List.length_append, List.length_singleton]; omega)
    simp only [List.length_append, List.length_singleton, Nat.cast_add, Nat.cast_one] at h2
    rw [← hid] at h2
    exact h2

/-- Witness of C11: two loads under "mathbf" from the initial state. -/
theorem C11_reregistered_math_font_witness :
    (((FontContext.initial.addMathFont ("mathbf", "a.otf", "a.clm")).addMathFont
      ("mathbf", "b.otf", "b.clm")).selectMathFont "mathbf")._mathFont =
        some (OtfFont.mk 1 "b.otf" (Otf.mk "b.clm")) ∧
    (((FontContext.initial.addMathFont ("mathbf", "a.otf", "a.clm")).addMathFont
      ("mathbf", "b.otf", "b.clm")).selectMathFont "mathbf").getFont 0 =
        some (OtfFont.mk 0 "a.otf" (Otf.mk "a.clm")) :=
  ⟨(C11_reregistered_math_font FontContext.initial _ "mathbf" "a.otf" "a.clm" "b.otf" "b.clm"
      ⟨rfl, fun i f h => absurd h (by simp [FontContext.initial])⟩ (by decide) rfl).1,
   (C11_reregistered_math_font FontContext.initial _ "mathbf" "a.otf" "a.clm" "b.otf" "b.clm"
      ⟨rfl, fun i f h => absurd h (by simp [FontContext.initial])⟩ (by decide)
      rfl).2.2.2.2.2.1⟩

/-- C20: selection captures the font registered at selection time. After
`addMathFont(v, f1)` and `selectMathFont(v)` the active math font is `f1`; a following
`addMathFont(v, f2)` leaves it `f1`, and every successful math-mode `getChar` keeps
reporting the id of `f1`; only after `selectMathFont(v)` is called again is the active font
`f2` and the reported id that of `f2`. No `addMathFont` ever changes the active font. -/
theorem C20_selection_captures_font (ctx s1 s2 s3 : FontContext)
    (v font1 clm1 font2 clm2 : String)
    (h1 : s1 = (ctx.addMathFont (v, font1, clm1)).selectMathFont v)
    (h2 : s2 = s1.addMathFont (v, font2, clm2))
    (h3 : s3 = s2.selectMathFont v) :
    s1._mathFont = some (OtfFont.mk ctx._lastId font1 (Otf.mk clm1)) ∧
    s2._mathFont = some (OtfFont.mk ctx._lastId font1 (Otf.mk clm1)) ∧
    s3._mathFont = some (OtfFont.mk (ctx._lastId + 1) font2 (Otf.mk clm2)) ∧
    (∀ (glyphId : Otf → Nat → Int) (c : Nat) (name : String) (r : Char × FontContext),
      s2.getChar glyphId c name true = some r → r.1._fontId = ctx._lastId) ∧
    (∀ (glyphId : Otf → Nat → Int) (c : Nat) (name : String) (V : MathVersion),
      StrMap.find s2._mathVersions name = some (some V) →
      s2.getChar glyphId c name true =
        some (Char.mk c (V.map c) ctx._lastId (glyphId (Otf.mk clm1) (V.map c)), s2)) ∧
    (∀ (glyphId : Otf → Nat → Int) (c : Nat) (name : String) (r : Char × FontContext),
      s3.getChar glyphId c name true = some r → r.1._fontId = ctx._lastId + 1) ∧
    (∀ (glyphId : Otf → Nat → Int) (c : Nat) (name : String) (V : MathVersion),
      StrMap.find s3._mathVersions name = some (some V) →
      s3.getChar glyphId c name true =
        some (Char.mk c (V.map c) (ctx._lastId + 1) (glyphId (Otf.mk clm2) (V.map c)), s3)) ∧
    (∀ (ctx0 : FontContext) (params : FontSpec),
      (ctx0.addMathFont params)._mathFont = ctx0._mathFont) := by
  have hidx1 : StrMap.index (StrMap.assign ctx._mathFonts v
      (some (OtfFont.mk ctx._lastId font1 (Otf.mk clm1)))) v =
      (some (OtfFont.mk ctx._lastId font1 (Otf.mk clm1)),
        StrMap.assign ctx._mathFonts v (some (OtfFont.mk ctx._lastId font1 (Otf.mk clm1)))) := by
    apply StrMap.index_of_find_some
    rw [StrMap.find_assign, if_pos rfl]
  have e1 : s1._mathFont = some (OtfFont.mk ctx._lastId font1 (Otf.mk clm1)) := by
    rw [h1]
    simp only [FontContext.selectMathFont, FontContext.addMathFont, OtfFont.new, hidx1]
  have e1id : s1._lastId = ctx._lastId + 1 := by
    rw [h1]
    rfl
  have e2 : s2._mathFont = some (OtfFont.mk ctx._lastId font1 (Otf.mk clm1)) := by
    rw [h2]
    exact e1
  have hidx3 : StrMap.index (StrMap.assign s1._mathFonts v
      (some (OtfFont.mk (ctx._lastId + 1) font2 (Otf.mk clm2)))) v =
      (some (OtfFont.mk (ctx._lastId + 1) font2 (Otf.mk clm2)),
        StrMap.assign s1._mathFonts v
          (some (OtfFont.mk (ctx._lastId + 1) font2 (Otf.mk clm2)))) := by
    apply StrMap.index_of_find_some
    rw [StrMap.find_assign, if_pos rfl]
  have e3 : s3._mathFont = some (OtfFont.mk (ctx._lastId + 1) font2 (Otf.mk clm2)) := by
    rw [h3, h2]
    simp only [FontContext.selectMathFont, FontContext.addMathFont, OtfFont.new, e1id, hidx3]
  refine ⟨e1, e2, e3, ?_, ?_, ?_, ?_, fun _ _ => rfl⟩
  · intro glyphId c name r h
    unfold FontContext.getChar at h
    simp only [if_true] at h
    exact getCharMath_fontId glyphId s2 c name _ r e2 h
  · intro glyphId c name V hV
    unfold FontContext.getChar
    simp only [if_true]
    exact getCharMath_of_bound glyphId s2 c name V _ e2 hV
  · intro glyphId c name r h
    unfold FontContext.getChar at h
    simp only [if_true] at h
    exact getCharMath_fontId glyphId s3 c name _ r e3 h
  · intro glyphId c name V hV
    unfold FontContext.getChar
    simp only [if_true]
    exact getCharMath_of_bound glyphId s3 c name V _ e3 hV

/-- Witness of C20: two loads under "mathbf" from the initial state, the first one
selected. -/
theorem C20_selection_captures_font_witness :
    (((FontContext.initial.addMathFont ("mathbf", "a.otf", "a.clm")).selectMathFont
      "mathbf").addMathFont ("mathbf", "b.otf", "b.clm"))._mathFont =
        some (OtfFont.mk 0 "a.otf" (Otf.mk "a.clm")) ∧
    ((((FontContext.initial.addMathFont ("mathbf", "a.otf", "a.clm")).selectMathFont
      "mathbf").addMathFont ("mathbf", "b.otf", "b.clm")).selectMathFont "mathbf")._mathFont =
        some (OtfFont.mk 1 "b.otf" (Otf.mk "b.clm")) :=
  ⟨(C20_selection_captures_font FontContext.initial _ _ _ "mathbf" "a.otf" "a.clm" "b.otf"
      "b.clm" rfl rfl rfl).2.1,
   (C20_selection_captures_font FontContext.initial _ _ _ "mathbf" "a.otf" "a.clm" "b.otf"
      "b.clm" rfl rfl rfl).2.2.1⟩

/-! ## Theorems: `setMathStyle` -/

/-- C13: for every name that is not a key of the style catalog, `setMathStyle(name)`
returns the registry state unchanged; so every entry of the math-version catalog, the
default key included, is bound as before, and math-mode `getChar` gives the same result
for every codepoint and every version name before and after the call. The name
"doesNotExist" is no key of the initial style catalog. -/
theorem C13_setMathStyle_unknown_name (ctx : FontContext) (name : String)
    (h : StrMap.find ctx._mathStyles name = none) :
    ctx.setMathStyle name = ctx ∧
    (∀ k, StrMap.find (ctx.setMathStyle name)._mathVersions k =
      StrMap.find ctx._mathVersions k) ∧
    (∀ (glyphId : Otf → Nat → Int) (c : Nat) (v : String),
      Option.map (fun r => r.1) ((ctx.setMathStyle name).getChar glyphId c v true) =
        Option.map (fun r => r.1) (ctx.getChar glyphId c v true)) ∧
    StrMap.find FontContext.initial._mathStyles "doesNotExist" = none := by
  have e : ctx.setMathStyle name = ctx := by
    unfold FontContext.setMathStyle
    rw [h]
  refine ⟨e, ?_, ?_, by decide⟩
  · intro k
    rw [e]
  · intro glyphId c v
    rw [e]

/-- Witness of C13: the name "doesNotExist" in the initial state. -/
theorem C13_setMathStyle_unknown_name_witness :
    FontContext.initial.setMathStyle "doesNotExist" = FontContext.initial :=
  (C13_setMathStyle_unknown_name FontContext.initial "doesNotExist" (by decide)).1

/-- C14: in the initial state the empty name and the default name "mathnormal" are both
bound to the TeX alphabet of the style catalog, whose keys are TeX, ISO, French and
upright; the other keys of the math-version catalog are the fourteen named versions. For every name `s` the style catalog binds to `A`, `setMathStyle(s)` binds the
default key to `A` and leaves every other key of the math-version catalog, the style
catalog, the id counter, the font list, the two font maps, the active fonts and the
families as they were. -/
theorem C14_setMathStyle_rebinds_default (ctx : FontContext) (s : String)
    (A : sptr MathVersion) (h : StrMap.find ctx._mathStyles s = some A) :
    StrMap.find FontContext.initial._mathVersions _emptyVersionName =
      StrMap.find FontContext.initial._mathStyles "TeX" ∧
    StrMap.find FontContext.initial._mathVersions _defaultVersionName =
      StrMap.find FontContext.initial._mathStyles "TeX" ∧
    StrMap.find FontContext.initial._mathStyles "TeX" =
      some (some (MathVersion.mk 48 0x1D44E 0x1D434 0x1D6FC 0x0391)) ∧
    List.map Prod.fst FontContext.initial._mathStyles = ["TeX", "ISO", "French", "upright"] ∧
    List.map Prod.fst FontContext.initial._mathVersions =
      ["", "mathnormal", "mathrm", "mathbf", "mathit", "mathbfit", "mathcal", "mathbfcal",
        "mathfrak", "mathbb", "mathbffrak", "mathsf", "mathsfbf", "mathsfit", "mathsfbfit",
        "mathtt"] ∧
    StrMap.find (ctx.setMathStyle s)._mathVersions _defaultVersionName = some A ∧
    (∀ k, k ≠ _defaultVersionName →
      StrMap.find (ctx.setMathStyle s)._mathVersions k = StrMap.find ctx._mathVersions k) ∧
    (ctx.setMathStyle s)._mathStyles = ctx._mathStyles ∧
    (ctx.setMathStyle s)._lastId = ctx._lastId ∧
    (ctx.setMathStyle s)._fonts = ctx._fonts ∧
    (ctx.setMathStyle s)._mainFonts = ctx._mainFonts ∧
    (ctx.setMathStyle s)._mathFonts = ctx._mathFonts ∧
    (ctx.setMathStyle s)._mainFont = ctx._mainFont ∧
    (ctx.setMathStyle s)._mathFont = ctx._mathFont ∧
    (ctx.setMathStyle s).heap = ctx.heap := by
  have e : ctx.setMathStyle s =
      { ctx with _mathVersions := StrMap.assign ctx._mathVersions _defaultVersionName A } := by
    unfold FontContext.setMathStyle
    rw [h]
  refine ⟨by decide, by decide, by decide, by decide, by decide,
    ?_, ?_, ?_, ?_, ?_, ?_, ?_, ?_, ?_, ?_⟩
  · rw [e]
    show StrMap.find (StrMap.assign ctx._mathVersions _defaultVersionName A) _ = _
    rw [StrMap.find_assign, if_pos rfl]
  · intro k hk
    rw [e]
    show StrMap.find (StrMap.assign ctx._mathVersions _defaultVersionName A) _ = _
    rw [StrMap.find_assign, if_neg hk]
  all_goals rw [e]

/-- Witness of C14: `setMathStyle("upright")` in the initial state. -/
theorem C14_setMathStyle_rebinds_default_witness :
    StrMap.find (FontContext.initial.setMathStyle "upright")._mathVersions
        _defaultVersionName = some (some (MathVersion.mk 48 97 65 0x03B1 0x0391)) ∧
    StrMap.find (FontContext.initial.setMathStyle "upright")._mathVersions "mathbf" =
      StrMap.find FontContext.initial._mathVersions "mathbf" :=
  ⟨(C14_setMathStyle_rebinds_default FontContext.initial "upright"
      (some (MathVersion.mk 48 97 65 0x03B1 0x0391)) (by decide)).2.2.2.2.2.1,
   (C14_setMathStyle_rebinds_default FontContext.initial "upright"
      (some (MathVersion.mk 48 97 65 0x03B1 0x0391)) (by decide)).2.2.2.2.2.2.1 "mathbf"
      (by decide)⟩

/-! ## Theorems: the "never occurs" cells -/

/-- C16, refuted as stated: in the initial state, and after `selectMathFont` with an
unregistered name, no math font is active, and math-mode `getChar` has no defined
result: the source dereferences the null `_mathFont` (the `none` of the embedding); no
failure value exists in the code. The same holds in text mode, where the null `_mainFont`
is dereferenced. -/
theorem C16_getChar_dereferences_null_font :
    FontContext.initial._mathFont = none ∧
    FontContext.initial._mainFont = none ∧
    FontContext.initial.getChar (fun _ u => Int.ofNat u) 97 "" true = none ∧
    FontContext.initial.getChar (fun _ u => Int.ofNat u) 97 "" false = none ∧
    ((FontContext.initial.addMathFont ("math", "a.otf", "a.clm")).selectMathFont
      "nosuch")._mathFont = none ∧
    ((FontContext.initial.addMathFont ("math", "a.otf", "a.clm")).selectMathFont
      "nosuch").getChar (fun _ u => Int.ofNat u) 97 "mathbf" true = none := by
  decide

/-- C16, amended: an active font is a precondition of `getChar` that the code does not
check. When no math font is active (none was selected, or `selectMathFont` was last called
with a name that is unregistered or bound to a null pointer, which makes the active font
null), math-mode `getChar` has no defined result for any codepoint
and version name: the null `_mathFont` is dereferenced. When no main family is active,
text-mode `getChar` has no defined result, whether or not a math font is active: the null
`_mainFont` is dereferenced; with an active family that has no font for the style name
nor for the empty name, and no active math font, the null `font` is dereferenced. In all
these cases neither a Char nor a failure is produced. -/
theorem C16_getChar_undefined_without_font (glyphId : Otf → Nat → Int) (ctx : FontContext)
    (c : Nat) (name : String) :
    (ctx._mathFont = none → ctx.getChar glyphId c name true = none) ∧
    (ctx._mainFont = none → ctx.getChar glyphId c name false = none) ∧
    (∀ p family, ctx._mainFont = some p → ctx.heap[p]? = some family →
      firstAvailableFont family ctx._mathFont name = none →
      ctx.getChar glyphId c name false = none) ∧
    (∀ v, (StrMap.find ctx._mathFonts v).join = none →
      (ctx.selectMathFont v)._mathFont = none) ∧
    (∀ v, (StrMap.find ctx._mainFonts v).join = none →
      (ctx.selectMainFont v)._mainFont = none) ∧
    FontContext.initial._mathFont = none ∧ FontContext.initial._mainFont = none := by
  refine ⟨?_, ?_, ?_, ?_, ?_, rfl, rfl⟩
  · intro h
    unfold FontContext.getChar FontContext.getCharMath
    simp only [if_true, h]
    split <;> rfl
  · intro h
    unfold FontContext.getChar FontContext.getCharText
    simp only [Bool.false_eq_true, if_false, h]
  · intro p family hp hfam hnone
    unfold FontContext.getChar FontContext.getCharText
    simp only [Bool.false_eq_true, if_false, hp, hfam, text_font_eq_firstAvailable, hnone]
  · intro v h
    show (StrMap.index ctx._mathFonts v).1 = none
    rw [StrMap.index_fst, h]
  · intro v h
    show (StrMap.index ctx._mainFonts v).1 = none
    rw [StrMap.index_fst, h]

/-- Witness of C16 amended: the initial state, math mode and text mode. -/
theorem C16_getChar_undefined_without_font_witness :
    FontContext.initial.getChar (fun _ u => Int.ofNat u) 97 "mathbf" true = none ∧
    FontContext.initial.getChar (fun _ u => Int.ofNat u) 97 "" false = none :=
  ⟨(C16_getChar_undefined_without_font (fun _ u => Int.ofNat u) FontContext.initial 97
      "mathbf").1 rfl,
   (C16_getChar_undefined_without_font (fun _ u => Int.ofNat u) FontContext.initial 97
      "").2.1 rfl⟩

/-- C17, refuted as stated: with a symbol dictionary that knows no symbol,
`getChar("alpha")` returns the value-initialized Char, every member zero. -/
theorem C17_unknown_symbol_gives_zero_char :
    FontContext.getCharOfSymbol (fun _ => (none : Option Nat)) "alpha" =
      some (Char.mk 0 0 0 0) := by
  decide

/-- C17, amended: for every symbol name the symbol dictionary does not know,
`getChar(symbolName)` returns the value-initialized Char, every member zero, and reports
no failure. -/
theorem C17_getChar_symbol_unknown {Symbol : Type} (get : String → Option Symbol)
    (symbol : String) (h : get symbol = none) :
    FontContext.getCharOfSymbol get symbol = some (Char.mk 0 0 0 0) := by
  unfold FontContext.getCharOfSymbol
  rw [h]

/-- Witness of C17 amended: a dictionary that knows only "alpha", asked for "beta". -/
theorem C17_getChar_symbol_unknown_witness :
    FontContext.getCharOfSymbol
        (fun n => if n = "alpha" then some (0x03B1 : Nat) else none) "beta" =
      some (Char.mk 0 0 0 0) :=
  C17_getChar_symbol_unknown (fun n => if n = "alpha" then some (0x03B1 : Nat) else none)
    "beta" (by decide)

/-! ## Theorems: the registered alphabets -/

/-- C18, evaluated at the failing input: the math-version catalog binds "mathbffrak" to
an alphabet whose capital Latin base is U+1D552, the small Latin base of "mathbb"; so
`mathbffrak.map('A')` and `mathbb.map('a')` are the same codepoint U+1D552, shifted in
both, and so are the images of the whole capital run of mathbffrak and small run of
mathbb. -/
theorem C18_mathbffrak_capitals_collide_with_mathbb :
    StrMap.find FontContext.initial._mathVersions "mathbffrak" =
      some (some (MathVersion.mk 48 0x1D586 0x1D552 0x03B1 0x0391)) ∧
    StrMap.find FontContext.initial._mathVersions "mathbb" =
      some (some (MathVersion.mk 0x1D7D8 0x1D552 0x1D538 0x03B1 0x0391)) ∧
    (MathVersion.mk 48 0x1D586 0x1D552 0x03B1 0x0391).map 65 = 0x1D552 ∧
    (MathVersion.mk 0x1D7D8 0x1D552 0x1D538 0x03B1 0x0391).map 97 = 0x1D552 ∧
    (MathVersion.mk 48 0x1D586 0x1D552 0x03B1 0x0391).map 65 =
      (MathVersion.mk 0x1D7D8 0x1D552 0x1D538 0x03B1 0x0391).map 97 ∧
    (MathVersion.mk 48 0x1D586 0x1D552 0x03B1 0x0391).map 65 ≠ 65 ∧
    (MathVersion.mk 0x1D7D8 0x1D552 0x1D538 0x03B1 0x0391).map 97 ≠ 97 ∧
    (∀ o : Fin 26, (MathVersion.mk 48 0x1D586 0x1D552 0x03B1 0x0391).map (65 + o.val) =
      (MathVersion.mk 0x1D7D8 0x1D552 0x1D538 0x03B1 0x0391).map (97 + o.val)) := by
  decide

/-- A codepoint of the class "none" is mapped to itself. -/
theorem map_of_none (V : MathVersion) (x : Nat) (hx : x < 2 ^ 32)
    (h : (MathVersion.ofChar x).1 = MathType.none) : V.map x = x := by
  have h2 : (MathVersion.ofChar x).2 = x := by
    unfold MathVersion.ofChar at h ⊢
    split_ifs at h ⊢
    rfl
  simp only [MathVersion.map, h, h2, MathType.toU8, MathVersion._codepoints,
    List.getD_cons_zero, add32, Nat.zero_add]
  exact Nat.mod_eq_of_lt hx

/-- An alphabet is idempotent when each base is the first codepoint of its own class (no
shift) or lies beyond the five classified ranges, its run staying below `2 ^ 32`. -/
theorem map_idempotent_of_bases (V : MathVersion) (c : Nat) (hc : c < 2 ^ 32)
    (h1 : V.digit = 48 ∨ (0x03CA ≤ V.digit ∧ V.digit + 25 < 2 ^ 32))
    (h2 : V.latinSmall = 97 ∨ (0x03CA ≤ V.latinSmall ∧ V.latinSmall + 25 < 2 ^ 32))
    (h3 : V.latinCapital = 65 ∨ (0x03CA ≤ V.latinCapital ∧ V.latinCapital + 25 < 2 ^ 32))
    (h4 : V.greekSmall = 0x03B1 ∨ (0x03CA ≤ V.greekSmall ∧ V.greekSmall + 25 < 2 ^ 32))
    (h5 : V.greekCapital = 0x0391 ∨
      (0x03CA ≤ V.greekCapital ∧ V.greekCapital + 25 < 2 ^ 32)) :
    V.map (V.map c) = V.map c := by
  have key : V.map c = c ∨ (0x03CA ≤ V.map c ∧ V.map c < 2 ^ 32) := by
    unfold MathVersion.map MathVersion.ofChar add32
    split_ifs <;>
      simp only [MathType.toU8, MathVersion._codepoints, List.getD_cons_zero,
        List.getD_cons_succ] <;> omega
  rcases key with hk | ⟨hk1, hk2⟩
  · rw [hk, hk]
  · apply map_of_none V _ hk2
    unfold MathVersion.ofChar
    split_ifs <;> first | rfl | omega

/-- A binding found in a map is an entry of the map. -/
theorem StrMap.mem_of_find {α : Type} (m : StrMap α) (k : String) (x : sptr α)
    (h : StrMap.find m k = some x) : (k, x) ∈ m := by
  induction m with
  | nil => exact absurd h (by simp [StrMap.find])
  | cons e m ih =>
    obtain ⟨k0, v0⟩ := e
    rw [StrMap.find_cons] at h
    by_cases hk : k = k0
    · rw [if_pos hk] at h
      simp only [Option.some.injEq] at h
      rw [hk, ← h]
      exact List.mem_cons_self _ _
    · rw [if_neg hk] at h
      exact List.mem_cons_of_mem _ (ih h)

/-- Every alphabet of the two initial catalogs passes the check `unshiftedOrBeyond`. -/
theorem catalogs_unshiftedOrBeyond :
    ∀ e ∈ tex._mathStyles ++ tex._mathVersions,
      Option.all MathVersion.unshiftedOrBeyond e.2 = true := by
  decide

/-- C19: for every alphabet registered in the style catalog or in the math-version
catalog and every 32-bit codepoint `c`, `map(map(c)) = map(c)`: an unshifted class maps
to itself and a shifted image lies outside the five classified ranges. -/
theorem C19_map_idempotent (name : String) (V : MathVersion) (c : Nat) (hc : c < 2 ^ 32)
    (hV : StrMap.find FontContext.initial._mathStyles name = some (some V) ∨
      StrMap.find FontContext.initial._mathVersions name = some (some V)) :
    V.map (V.map c) = V.map c := by
  have hmem : (name, some V) ∈ tex._mathStyles ++ tex._mathVersions := by
    rcases hV with h | h
    · exact List.mem_append_left _ (StrMap.mem_of_find _ _ _ h)
    · exact List.mem_append_right _ (StrMap.mem_of_find _ _ _ h)
  have hb : V.unshiftedOrBeyond = true := catalogs_unshiftedOrBeyond _ hmem
  unfold MathVersion.unshiftedOrBeyond at hb
  simp only [Bool.and_eq_true, decide_eq_true_eq] at hb
  obtain ⟨⟨⟨⟨h1, h2⟩, h3⟩, h4⟩, h5⟩ := hb
  exact map_idempotent_of_bases V c hc h1 h2 h3 h4 h5

/-- Witness of C19: the alphabet mathbf and the codepoint `'b'`. -/
theorem C19_map_idempotent_witness :
    (MathVersion.mk 0x1D7CE 0x1D41A 0x1D400 0x1D6C2 0x1D6A8).map
        ((MathVersion.mk 0x1D7CE 0x1D41A 0x1D400 0x1D6C2 0x1D6A8).map 98) =
      (MathVersion.mk 0x1D7CE 0x1D41A 0x1D400 0x1D6C2 0x1D6A8).map 98 :=
  C19_map_idempotent "mathbf" (MathVersion.mk 0x1D7CE 0x1D41A 0x1D400 0x1D6C2 0x1D6A8) 98
    (by decide) (Or.inr (by decide))

end tex
